import Mathlib

/-!
Shallow embedding of the `rusty_money` library: a `Money` value type over exact
decimal (rational) amounts, a locale-aware formatter and parser, and an
exchange-rate engine.

The repository sources available are `src/lib.rs` (the crate documentation and
module wiring) and `src/currency/iso.rs` (the static ISO currency catalog).
The implementation modules `money.rs`, `format.rs`, `locale.rs`, `error.rs`
and `exchange.rs` are not present, so the corresponding definitions below are
modelled from the specification (sections 3, 4.1-4.4, 7) and from the worked
examples in the crate documentation; each such definition says so in its doc
comment.  `Currency`, `Iso` and `from_enum` are translated directly from
`src/currency/iso.rs`.
-/

namespace RustyMoney

/-- The locale identifiers referenced by the currency catalog in
`src/currency/iso.rs` (`EnUs`, `EnEu`, `EnIn`). The `Locale` enum itself lives
in the absent `locale.rs`; only the variant names used by `iso.rs` are known
from the sources. -/
inductive Locale where
  | EnUs
  | EnEu
  | EnIn
deriving DecidableEq, Repr

/-- Modelled from the spec: a Locale Descriptor (section 3) — "decimal
separator, grouping separator, grouping width (typically 3)". The table itself
is in the absent `locale.rs`. -/
structure LocaleFormat where
  decimal_separator : Char
  grouping_separator : Char
  grouping_width : Nat
deriving DecidableEq, Repr

/-- Modelled from the spec: the static locale table (section 3, `locale.rs`
absent). `EnUs` and `EnIn` use period decimal / comma grouping, `EnEu` uses
comma decimal / period grouping (section 6: "comma/period for US English,
period/comma for EU"); the grouping width is the typical 3. -/
def Locale.localeFormat : Locale → LocaleFormat
  | .EnUs => ⟨'.', ',', 3⟩
  | .EnEu => ⟨',', '.', 3⟩
  | .EnIn => ⟨'.', ',', 3⟩

/-- The currency descriptor, with the fields used by `src/currency/iso.rs`. -/
structure Currency where
  default_locale : Locale
  exponent : Nat
  iso_alpha_code : String
  iso_numeric_code : String
  name : String
  symbol : String
  symbol_first : Bool
deriving DecidableEq, Repr

/-- The ISO currency enum of `src/currency/iso.rs`. -/
inductive Iso where
  | AED
  | BHD
  | EUR
  | GBP
  | INR
  | USD
deriving DecidableEq, Repr

/-- Returns Currency given an Iso Enum — translated field by field from
`from_enum` in `src/currency/iso.rs`. -/
def from_enum : Iso → Currency
  | .AED =>
    { default_locale := .EnUs
      exponent := 2
      iso_alpha_code := "AED"
      iso_numeric_code := "784"
      name := "United Arab Emirates Dirham"
      symbol := "د.إ"
      symbol_first := false }
  | .BHD =>
    { default_locale := .EnUs
      exponent := 3
      iso_alpha_code := "BHD"
      iso_numeric_code := "048"
      name := "Bahraini Dinar"
      symbol := "ب.د"
      symbol_first := true }
  | .EUR =>
    { default_locale := .EnEu
      exponent := 2
      iso_alpha_code := "EUR"
      iso_numeric_code := "978"
      name := "Euro"
      symbol := "€"
      symbol_first := true }
  | .GBP =>
    { default_locale := .EnUs
      exponent := 2
      iso_alpha_code := "GBP"
      iso_numeric_code := "826"
      name := "British Pound"
      symbol := "£"
      symbol_first := true }
  | .INR =>
    { default_locale := .EnIn
      exponent := 2
      iso_alpha_code := "INR"
      iso_numeric_code := "356"
      name := "Indian Rupee"
      symbol := "₹"
      symbol_first := true }
  | .USD =>
    { default_locale := .EnUs
      exponent := 2
      iso_alpha_code := "USD"
      iso_numeric_code := "840"
      name := "United States Dollar"
      symbol := "$"
      symbol_first := true }

/-- Modelled from the spec: the error kinds of section 7 (`error.rs` absent). -/
inductive MoneyError where
  | UnknownCurrency
  | CurrencyMismatch
  | InvalidRate
  | RateNotFound
  | ParseError
deriving DecidableEq, Repr

/-- Modelled from the spec: Money (section 3) — an exact decimal `amount`
(embedded as a rational, which every exact decimal is) paired with a currency
reference (`money.rs` absent). -/
structure Money where
  amount : ℚ
  currency : Currency
deriving DecidableEq, Repr

/-- Modelled from the spec: the rounding modes of section 4.1 — "half-up,
half-down, half-even (banker's rounding), ceiling, floor". -/
inductive RoundingMode where
  | halfUp
  | halfDown
  | halfEven
  | ceiling
  | floor
deriving DecidableEq, Repr

/-- Half-up rounding of a rational to an integer: ties are rounded away from
zero. -/
def roundHalfUpInt (q : ℚ) : ℤ :=
  if 0 ≤ q then ⌊q + 1 / 2⌋ else -⌊-q + 1 / 2⌋

/-- Half-down rounding of a rational to an integer: ties are rounded toward
zero. -/
def roundHalfDownInt (q : ℚ) : ℤ :=
  if 0 ≤ q then ⌈q - 1 / 2⌉ else -⌈-q - 1 / 2⌉

/-- Half-even (banker's) rounding of a rational to an integer: ties go to the
even neighbour. -/
def roundHalfEvenInt (q : ℚ) : ℤ :=
  if Int.fract q < 1 / 2 then ⌊q⌋
  else if 1 / 2 < Int.fract q then ⌊q⌋ + 1
  else if ⌊q⌋ % 2 = 0 then ⌊q⌋ else ⌊q⌋ + 1

/-- Rounding a rational to an integer in a given mode. -/
def roundToInt : RoundingMode → ℚ → ℤ
  | .halfUp, q => roundHalfUpInt q
  | .halfDown, q => roundHalfDownInt q
  | .halfEven, q => roundHalfEvenInt q
  | .ceiling, q => ⌈q⌉
  | .floor, q => ⌊q⌋

/-- Modelled from the spec: `round(m, mode)` (section 4.1) — "produces a new
amount scaled to `currency.exponent` fractional digits using the requested
rounding mode" (`money.rs` absent). -/
def Money.round (m : Money) (mode : RoundingMode) : Money :=
  ⟨(roundToInt mode (m.amount * 10 ^ m.currency.exponent) : ℚ) /
      10 ^ m.currency.exponent,
    m.currency⟩

/-- Modelled from the spec: `from_minor_units` (section 4.1) — "amount is
interpreted as the smallest currency unit...; result amount =
amount / 10^exponent, exact" (`money.rs` absent). The source name is
`Money::from_minor` (`src/lib.rs` line 22). -/
def Money.from_minor (n : ℤ) (c : Currency) : Money :=
  ⟨(n : ℚ) / 10 ^ c.exponent, c⟩

/-- Modelled from the spec: `from_major_units` (section 4.1) — "amount is
whole units; fractional part = 0" (`money.rs` absent). The source name is
`Money::from_major` (`src/lib.rs` line 21). -/
def Money.from_major (n : ℤ) (c : Currency) : Money :=
  ⟨(n : ℚ), c⟩

/-- Modelled from the crate documentation (`src/lib.rs` line 20):
`Money::new(200000, Currency::get(USD))` yields amount 2000 USD, the same as
`Money::from_minor(200000, ...)`, so `new` interprets its integer argument as
minor units (`money.rs` absent). -/
def Money.new (n : ℤ) (c : Currency) : Money :=
  ⟨(n : ℚ) / 10 ^ c.exponent, c⟩

/-- Modelled from the spec: `add(a, b)` (section 4.1) — "defined only when
`a.currency == b.currency`; fails with a currency-mismatch error otherwise.
Result amount is the exact decimal sum — no rounding" (`money.rs` absent). -/
def Money.add (a b : Money) : Except MoneyError Money :=
  if a.currency = b.currency then .ok ⟨a.amount + b.amount, a.currency⟩
  else .error .CurrencyMismatch

/-- Modelled from the spec: `subtract(a, b)` (section 4.1) — exact decimal
difference when the currencies match, currency-mismatch error otherwise
(`money.rs` absent). -/
def Money.sub (a b : Money) : Except MoneyError Money :=
  if a.currency = b.currency then .ok ⟨a.amount - b.amount, a.currency⟩
  else .error .CurrencyMismatch

/-- Modelled from the spec: `multiply(a, scalar)` (section 4.1) — the scalar
is a plain number, the product is exact (`money.rs` absent). -/
def Money.mul (m : Money) (s : ℚ) : Money :=
  ⟨m.amount * s, m.currency⟩

/-- Modelled from the spec: `divide(a, scalar)` (section 4.1) — "division
never errors on non-terminating decimals — the result retains enough computed
precision for comparison/formatting purposes without silently rounding to the
currency exponent"; embedded as exact rational division (`money.rs` absent). -/
def Money.div (m : Money) (s : ℚ) : Money :=
  ⟨m.amount / s, m.currency⟩

/-- Modelled from the spec: an ExchangeRate (section 3) — two currency
references and an exact decimal rate (`exchange.rs` absent). -/
structure ExchangeRate where
  from_currency : Currency
  to_currency : Currency
  rate : ℚ
deriving DecidableEq, Repr

/-- Modelled from the spec: `ExchangeRate.new(from, to, rate)` (section 4.4) —
"fails if `from == to` or `rate <= 0`", with error kind `InvalidRate`
(section 7) (`exchange.rs` absent). -/
def ExchangeRate.new (f t : Currency) (r : ℚ) : Except MoneyError ExchangeRate :=
  if f = t ∨ r ≤ 0 then .error .InvalidRate else .ok ⟨f, t, r⟩

/-- Modelled from the spec: `convert(rate, money)` (section 4.4) — "fails if
`money.currency != rate.from_currency`. Computes
`result_amount = money.amount * rate.rate` exactly, then rounds to
`rate.to_currency.exponent` fractional digits using half-up rounding,
returning Money in `to_currency`" (`exchange.rs` absent). -/
def ExchangeRate.convert (r : ExchangeRate) (m : Money) : Except MoneyError Money :=
  if m.currency = r.from_currency then
    .ok (Money.round ⟨m.amount * r.rate, r.to_currency⟩ .halfUp)
  else .error .CurrencyMismatch

/-! ### Formatter

Modelled from the spec, section 4.2 (`format.rs` and the `Display` impl in
`money.rs` are absent from the sources). The digit strings are built least
significant digit first and reversed at the end, which matches the grouping
rule "insert the locale's grouping separator every `grouping_width` digits
counting from the least-significant digit of the integer part". -/

/-- The decimal digits of `n`, least significant first, computed with `n` as
fuel (empty for `n = 0`). -/
def natDigitsAux : Nat → Nat → List Nat
  | 0, _ => []
  | _ + 1, 0 => []
  | fuel + 1, n + 1 => (n + 1) % 10 :: natDigitsAux fuel ((n + 1) / 10)

/-- The decimal digits of `n`, least significant first; `[0]` for zero, so an
integer part always renders at least one digit. -/
def natDigitsLSB (n : Nat) : List Nat :=
  if n = 0 then [0] else natDigitsAux n n

/-- The value of a least-significant-first digit list. -/
def lsbVal : List Nat → Nat
  | [] => 0
  | d :: ds => d + 10 * lsbVal ds

/-- Insert the grouping separator `sep` after every `w` digits of a
least-significant-first character list; `k` counts the digits still to emit
before the next separator. -/
def groupAux (sep : Char) (w : Nat) : List Char → Nat → List Char
  | [], _ => []
  | c :: cs, 0 => sep :: c :: groupAux sep w cs (w - 1)
  | c :: cs, k + 1 => c :: groupAux sep w cs k

/-- The grouped integer part of the formatted string (most significant digit
first): spec section 4.2, step 2. -/
def renderInt (fmt : LocaleFormat) (n : Nat) : List Char :=
  (groupAux fmt.grouping_separator fmt.grouping_width
      ((natDigitsLSB n).map Nat.digitChar) fmt.grouping_width).reverse

/-- The fractional digits of `f`, least significant first, zero-padded to
exactly `e` digits (spec section 4.2, step 3). -/
def fracLSB (e f : Nat) : List Char :=
  (natDigitsAux f f ++ List.replicate (e - (natDigitsAux f f).length) 0).map
    Nat.digitChar

/-- The fractional part of the formatted string (most significant digit
first), exactly `e` digits. -/
def renderFrac (e f : Nat) : List Char :=
  (fracLSB e f).reverse

/-- The numeric part of a formatted string for a positive exponent `e`:
grouped integer digits, decimal separator, `e` fractional digits. -/
def numPart (fmt : LocaleFormat) (e N : Nat) : List Char :=
  renderInt fmt (N / 10 ^ e) ++
    fmt.decimal_separator :: renderFrac e (N % 10 ^ e)

/-- Modelled from the spec, section 4.2 steps 2-5: the formatted absolute
value `N / 10^exponent` (with `N` the scaled, already rounded, non-negative
amount), as a character list — grouped integer part, decimal separator and
exponent-many fractional digits (omitted when the exponent is 0), and the
currency symbol before or after the digits per `symbol_first`. -/
def formatAbs (c : Currency) (fmt : LocaleFormat) (N : Nat) : List Char :=
  let num :=
    renderInt fmt (N / 10 ^ c.exponent) ++
      (if c.exponent = 0 then []
       else fmt.decimal_separator :: renderFrac c.exponent (N % 10 ^ c.exponent))
  if c.symbol_first then c.symbol.data ++ num else num ++ c.symbol.data

/-- Modelled from the spec: `format(money, locale)` (section 4.2). Step 1
determines the sign and formats the absolute value; step 3 resolves fractional
digits beyond the exponent at format time "using half-up as the default
display rounding"; step 5 places the sign immediately before the leading
symbol-or-digit. -/
def Money.format (m : Money) (loc : Locale) : String :=
  let fmt := loc.localeFormat
  let N := (roundHalfUpInt (|m.amount| * 10 ^ m.currency.exponent)).toNat
  let body := formatAbs m.currency fmt N
  String.mk (if m.amount < 0 then '-' :: body else body)

/-! ### Parser

Modelled from the spec, section 4.3 (`money.rs` with `Money::from_str` is
absent from the sources). The sign marker is stripped before the currency
symbol so that the section 4.3 round-trip contract holds for negative amounts,
whose symbol is emitted between the sign and the digits by section 4.2
step 5. -/

/-- Spec section 4.3, step 2: detect and strip a leading or trailing sign
marker; the default sign is positive. Returns the detected negativity and the
remaining characters. -/
def stripSign (cs : List Char) : Bool × List Char :=
  if cs.head? = some '-' then (true, cs.tail)
  else if cs.head? = some '+' then (false, cs.tail)
  else if cs.getLast? = some '-' then (true, cs.dropLast)
  else (false, cs)

/-- Spec section 4.3, step 1: strip the currency symbol if present at either
end; its absence is not an error. -/
def stripSymbol (sym cs : List Char) : List Char :=
  if sym.isPrefixOf cs then cs.drop sym.length
  else if sym.isSuffixOf cs then cs.take (cs.length - sym.length)
  else cs

/-- Helper for `splitOnChar`: the first segment and the remaining segments. -/
def splitOnCharAux (c : Char) : List Char → List Char × List (List Char)
  | [] => ([], [])
  | x :: xs =>
    let r := splitOnCharAux c xs
    if x = c then ([], r.1 :: r.2) else (x :: r.1, r.2)

/-- Split a character list at every occurrence of `c` (spec section 4.3,
step 4: split on the decimal-separator character). -/
def splitOnChar (c : Char) (cs : List Char) : List (List Char) :=
  (splitOnCharAux c cs).1 :: (splitOnCharAux c cs).2

/-- The numeric value of a digit character. -/
def digitVal (c : Char) : Nat := c.toNat - 48

/-- The value of a least-significant-first list of digit characters. -/
def charsValRev : List Char → Nat
  | [] => 0
  | c :: cs => digitVal c + 10 * charsValRev cs

/-- The value of a most-significant-first list of digit characters. -/
def charsVal (cs : List Char) : Nat := charsValRev cs.reverse

/-- Spec section 4.3, steps 4-6: reconstruct the exact decimal value from the
decimal-separator-split segments (a fractional segment is optional, more than
one decimal separator is an error), requiring at least one digit and only
digits; `sign` is the already detected sign factor. -/
def assembleParts (sign : ℚ) (c : Currency) : List (List Char) → Except MoneyError Money
  | [ip] =>
    if ip ≠ [] ∧ ip.all Char.isDigit then
      .ok ⟨sign * (charsVal ip : ℚ), c⟩
    else .error .ParseError
  | [ip, fp] =>
    if ip ++ fp ≠ [] ∧ (ip ++ fp).all Char.isDigit then
      .ok ⟨sign * ((charsVal ip : ℚ) + (charsVal fp : ℚ) / 10 ^ fp.length), c⟩
    else .error .ParseError
  | _ => .error .ParseError

/-- Modelled from the spec: `parse(text, currency)` (section 4.3), using the
currency's default locale for the separator conventions. Steps: strip the
sign marker and the currency symbol, remove all grouping separators, split on
the decimal separator (at most one allowed), check that only digits remain
and that there is at least one digit, reconstruct the exact decimal value and
apply the sign; otherwise fail with `ParseError` (section 7). -/
def Money.parse (s : String) (c : Currency) : Except MoneyError Money :=
  let fmt := c.default_locale.localeFormat
  let sgn := stripSign s.data
  let cs := (stripSymbol c.symbol.data sgn.2).filter
    (fun ch => ch ≠ fmt.grouping_separator)
  let sign : ℚ := if sgn.1 then -1 else 1
  assembleParts sign c (splitOnChar fmt.decimal_separator cs)

/-! ### Digit-list lemmas -/

theorem natDigitsAux_lt (fuel n : Nat) : ∀ d ∈ natDigitsAux fuel n, d < 10 := by
  induction fuel generalizing n with
  | zero => simp [natDigitsAux]
  | succ fuel ih =>
    cases n with
    | zero => simp [natDigitsAux]
    | succ m =>
      simp only [natDigitsAux, List.mem_cons]
      rintro d (rfl | hd)
      · exact Nat.mod_lt _ (by omega)
      · exact ih _ d hd

theorem lsbVal_natDigitsAux (fuel n : Nat) (h : n ≤ fuel) :
    lsbVal (natDigitsAux fuel n) = n := by
  induction fuel generalizing n with
  | zero =>
    have : n = 0 := by omega
    subst this
    simp [natDigitsAux, lsbVal]
  | succ fuel ih =>
    cases n with
    | zero => simp [natDigitsAux, lsbVal]
    | succ m =>
      have hlt : (m + 1) / 10 < m + 1 := Nat.div_lt_self (by omega) (by omega)
      have hle : (m + 1) / 10 ≤ fuel := by omega
      simp only [natDigitsAux, lsbVal, ih _ hle]
      omega

theorem natDigitsAux_length (fuel n e : Nat) (hn : n ≤ fuel) (h : n < 10 ^ e) :
    (natDigitsAux fuel n).length ≤ e := by
  induction fuel generalizing n e with
  | zero =>
    have : n = 0 := by omega
    subst this
    simp [natDigitsAux]
  | succ fuel ih =>
    cases n with
    | zero => simp [natDigitsAux]
    | succ m =>
      cases e with
      | zero => simp at h
      | succ e =>
        have hlt : (m + 1) / 10 < m + 1 := Nat.div_lt_self (by omega) (by omega)
        have hle : (m + 1) / 10 ≤ fuel := by omega
        have hpow : (m + 1) / 10 < 10 ^ e := by
          rw [Nat.div_lt_iff_lt_mul (by omega)]
          calc m + 1 < 10 ^ (e + 1) := h
            _ = 10 ^ e * 10 := by rw [Nat.pow_succ]
        simpa [natDigitsAux] using ih _ _ hle hpow

theorem natDigitsLSB_lt (n : Nat) : ∀ d ∈ natDigitsLSB n, d < 10 := by
  unfold natDigitsLSB
  split
  · simp
  · exact natDigitsAux_lt n n

theorem lsbVal_natDigitsLSB (n : Nat) : lsbVal (natDigitsLSB n) = n := by
  unfold natDigitsLSB
  split
  · simp [lsbVal, *]
  · exact lsbVal_natDigitsAux n n le_rfl

theorem natDigitsLSB_ne_nil (n : Nat) : natDigitsLSB n ≠ [] := by
  unfold natDigitsLSB
  split
  · simp
  · cases hn : natDigitsAux n n with
    | nil =>
      have := lsbVal_natDigitsAux n n le_rfl
      rw [hn] at this
      simp [lsbVal] at this
      simp_all
    | cons d ds => simp

theorem digitVal_digitChar (d : Nat) (h : d < 10) :
    digitVal (Nat.digitChar d) = d := by
  interval_cases d <;> rfl

theorem digitChar_isDigit (d : Nat) (h : d < 10) :
    (Nat.digitChar d).isDigit = true := by
  interval_cases d <;> rfl

theorem charsValRev_map (ds : List Nat) (h : ∀ d ∈ ds, d < 10) :
    charsValRev (ds.map Nat.digitChar) = lsbVal ds := by
  induction ds with
  | nil => rfl
  | cons d ds ih =>
    simp only [List.map_cons, charsValRev, lsbVal]
    rw [digitVal_digitChar d (h d (by simp)), ih fun x hx => h x (by simp [hx])]

theorem lsbVal_replicate_zero (k : Nat) : lsbVal (List.replicate k 0) = 0 := by
  induction k with
  | zero => rfl
  | succ k ih => simp [List.replicate, lsbVal, ih]

theorem lsbVal_append_replicate_zero (ds : List Nat) (k : Nat) :
    lsbVal (ds ++ List.replicate k 0) = lsbVal ds := by
  induction ds with
  | nil => simpa [lsbVal] using lsbVal_replicate_zero k
  | cons d ds ih => simp [lsbVal, ih]

/-! ### Grouping lemmas -/

theorem groupAux_ne_nil (sep : Char) (w : Nat) (ds : List Char) (k : Nat)
    (h : ds ≠ []) : groupAux sep w ds k ≠ [] := by
  cases ds with
  | nil => exact absurd rfl h
  | cons c cs => cases k <;> simp [groupAux]

theorem groupAux_mem (sep : Char) (w : Nat) (ds : List Char) (k : Nat) :
    ∀ x ∈ groupAux sep w ds k, x ∈ ds ∨ x = sep := by
  induction ds generalizing k with
  | nil => simp [groupAux]
  | cons c cs ih =>
    intro x hx
    cases k with
    | zero =>
      simp only [groupAux, List.mem_cons] at hx
      rcases hx with rfl | rfl | hx
      · exact Or.inr rfl
      · exact Or.inl (by simp)
      · rcases ih _ x hx with h | h
        · exact Or.inl (by simp [h])
        · exact Or.inr h
    | succ k =>
      simp only [groupAux, List.mem_cons] at hx
      rcases hx with rfl | hx
      · exact Or.inl (by simp)
      · rcases ih _ x hx with h | h
        · exact Or.inl (by simp [h])
        · exact Or.inr h

theorem groupAux_filter (sep : Char) (w : Nat) (ds : List Char) (k : Nat)
    (h : ∀ x ∈ ds, x ≠ sep) :
    (groupAux sep w ds k).filter (fun x => x ≠ sep) = ds := by
  induction ds generalizing k with
  | nil => simp [groupAux]
  | cons c cs ih =>
    have hc : c ≠ sep := h c (by simp)
    have hcs : ∀ x ∈ cs, x ≠ sep := fun x hx => h x (by simp [hx])
    cases k with
    | zero =>
      simpa [groupAux, List.filter_cons, hc] using ih _ hcs
    | succ k =>
      simpa [groupAux, List.filter_cons, hc] using ih _ hcs

/-! ### splitOnChar lemmas -/

theorem splitOnCharAux_of_not_mem (c : Char) (cs : List Char) (h : c ∉ cs) :
    splitOnCharAux c cs = (cs, []) := by
  induction cs with
  | nil => rfl
  | cons x xs ih =>
    have hx : x ≠ c := fun e => h (by simp [e])
    have hxs : c ∉ xs := fun e => h (by simp [e])
    simp [splitOnCharAux, hx, ih hxs]

theorem splitOnCharAux_append (c : Char) (a b : List Char) (h : c ∉ a) :
    splitOnCharAux c (a ++ c :: b) =
      (a, (splitOnCharAux c b).1 :: (splitOnCharAux c b).2) := by
  induction a with
  | nil => simp [splitOnCharAux]
  | cons x xs ih =>
    have hx : x ≠ c := fun e => h (by simp [e])
    have hxs : c ∉ xs := fun e => h (by simp [e])
    simp [splitOnCharAux, hx, ih hxs]

theorem splitOnChar_of_not_mem (c : Char) (cs : List Char) (h : c ∉ cs) :
    splitOnChar c cs = [cs] := by
  simp [splitOnChar, splitOnCharAux_of_not_mem c cs h]

theorem splitOnChar_append_single (c : Char) (a b : List Char)
    (ha : c ∉ a) (hb : c ∉ b) :
    splitOnChar c (a ++ c :: b) = [a, b] := by
  have haux := splitOnCharAux_append c a b ha
  have hb' := splitOnCharAux_of_not_mem c b hb
  simp [splitOnChar, haux, hb']

/-! ### Character facts -/

theorem isDigit_ne_minus {x : Char} (h : x.isDigit = true) : x ≠ '-' := by
  intro e
  rw [e] at h
  exact absurd h (by decide)

theorem isDigit_ne_plus {x : Char} (h : x.isDigit = true) : x ≠ '+' := by
  intro e
  rw [e] at h
  exact absurd h (by decide)

theorem mem_of_head?_eq {α : Type} {l : List α} {x : α} (h : l.head? = some x) :
    x ∈ l := by
  cases l with
  | nil => simp at h
  | cons a t =>
    simp only [List.head?_cons, Option.some.injEq] at h
    simp [h]

theorem mem_of_getLast?_eq {α : Type} {l : List α} {x : α} (h : l.getLast? = some x) :
    x ∈ l := by
  rw [← List.head?_reverse] at h
  exact List.mem_reverse.mp (mem_of_head?_eq h)

/-! ### Rendered-number lemmas -/

theorem renderInt_mem (fmt : LocaleFormat) (n : Nat) :
    ∀ x ∈ renderInt fmt n, x.isDigit = true ∨ x = fmt.grouping_separator := by
  intro x hx
  rw [renderInt, List.mem_reverse] at hx
  rcases groupAux_mem _ _ _ _ x hx with h | h
  · obtain ⟨d, hd, rfl⟩ := List.mem_map.mp h
    exact Or.inl (digitChar_isDigit d (natDigitsLSB_lt n d hd))
  · exact Or.inr h

theorem renderInt_ne_nil (fmt : LocaleFormat) (n : Nat) : renderInt fmt n ≠ [] := by
  rw [renderInt, ne_eq, List.reverse_eq_nil_iff]
  exact groupAux_ne_nil _ _ _ _ (by simp [natDigitsLSB_ne_nil n])

theorem renderInt_filter (fmt : LocaleFormat) (n : Nat)
    (hg : fmt.grouping_separator.isDigit = false) :
    (renderInt fmt n).filter (fun x => x ≠ fmt.grouping_separator)
      = ((natDigitsLSB n).map Nat.digitChar).reverse := by
  rw [renderInt, List.filter_reverse]
  congr 1
  apply groupAux_filter
  intro x hx
  obtain ⟨d, hd, rfl⟩ := List.mem_map.mp hx
  intro e
  have := digitChar_isDigit d (natDigitsLSB_lt n d hd)
  rw [e, hg] at this
  exact Bool.false_ne_true this

theorem charsVal_digits (n : Nat) :
    charsVal (((natDigitsLSB n).map Nat.digitChar).reverse) = n := by
  rw [charsVal, List.reverse_reverse, charsValRev_map _ (natDigitsLSB_lt n),
    lsbVal_natDigitsLSB]

theorem digitsMSB_mem (n : Nat) :
    ∀ x ∈ ((natDigitsLSB n).map Nat.digitChar).reverse, x.isDigit = true := by
  intro x hx
  rw [List.mem_reverse] at hx
  obtain ⟨d, hd, rfl⟩ := List.mem_map.mp hx
  exact digitChar_isDigit d (natDigitsLSB_lt n d hd)

theorem digitsMSB_ne_nil (n : Nat) :
    ((natDigitsLSB n).map Nat.digitChar).reverse ≠ [] := by
  simp [natDigitsLSB_ne_nil n]

theorem renderFrac_mem (e f : Nat) : ∀ x ∈ renderFrac e f, x.isDigit = true := by
  intro x hx
  rw [renderFrac, List.mem_reverse, fracLSB] at hx
  obtain ⟨d, hd, rfl⟩ := List.mem_map.mp hx
  rcases List.mem_append.mp hd with h | h
  · exact digitChar_isDigit d (natDigitsAux_lt f f d h)
  · rw [List.eq_of_mem_replicate h]
    decide

theorem charsVal_renderFrac (e f : Nat) : charsVal (renderFrac e f) = f := by
  rw [renderFrac, charsVal, List.reverse_reverse, fracLSB]
  rw [charsValRev_map]
  · rw [lsbVal_append_replicate_zero, lsbVal_natDigitsAux f f le_rfl]
  · intro d hd
    rcases List.mem_append.mp hd with h | h
    · exact natDigitsAux_lt f f d h
    · rw [List.eq_of_mem_replicate h]; omega

theorem renderFrac_length (e f : Nat) (hf : f < 10 ^ e) :
    (renderFrac e f).length = e := by
  have hlen := natDigitsAux_length f f e le_rfl hf
  rw [renderFrac, List.length_reverse, fracLSB, List.length_map,
    List.length_append, List.length_replicate]
  omega

/-! ### The numeric part of a formatted string -/

theorem formatAbs_eq_numPart (c : Currency) (fmt : LocaleFormat) (N : Nat)
    (hE : c.exponent ≠ 0) :
    formatAbs c fmt N =
      if c.symbol_first then c.symbol.data ++ numPart fmt c.exponent N
      else numPart fmt c.exponent N ++ c.symbol.data := by
  simp [formatAbs, numPart, hE]

theorem numPart_ne_nil (fmt : LocaleFormat) (e N : Nat) :
    numPart fmt e N ≠ [] := by
  simp [numPart]

theorem numPart_mem (fmt : LocaleFormat) (e N : Nat) :
    ∀ x ∈ numPart fmt e N,
      x.isDigit = true ∨ x = fmt.grouping_separator ∨ x = fmt.decimal_separator := by
  intro x hx
  rw [numPart] at hx
  rcases List.mem_append.mp hx with h | h
  · rcases renderInt_mem fmt _ x h with h' | h'
    · exact Or.inl h'
    · exact Or.inr (Or.inl h')
  · rcases List.mem_cons.mp h with h' | h'
    · exact Or.inr (Or.inr h')
    · exact Or.inl (renderFrac_mem _ _ x h')

theorem parse_numPart (fmt : LocaleFormat) (e N : Nat)
    (hgd : fmt.grouping_separator ≠ fmt.decimal_separator)
    (hgdig : fmt.grouping_separator.isDigit = false)
    (hddig : fmt.decimal_separator.isDigit = false) :
    splitOnChar fmt.decimal_separator
        ((numPart fmt e N).filter (fun x => x ≠ fmt.grouping_separator))
      = [((natDigitsLSB (N / 10 ^ e)).map Nat.digitChar).reverse,
          renderFrac e (N % 10 ^ e)] := by
  rw [numPart, List.filter_append, renderInt_filter fmt _ hgdig]
  have hfrac : (fmt.decimal_separator :: renderFrac e (N % 10 ^ e)).filter
      (fun x => x ≠ fmt.grouping_separator)
      = fmt.decimal_separator :: renderFrac e (N % 10 ^ e) := by
    rw [List.filter_eq_self]
    intro a ha
    rcases List.mem_cons.mp ha with rfl | h
    · simpa using fun h' => hgd h'.symm
    · have := renderFrac_mem _ _ a h
      simp only [decide_eq_true_eq]
      intro e'
      rw [e', hgdig] at this
      exact Bool.false_ne_true this
  rw [hfrac]
  apply splitOnChar_append_single
  · intro hmem
    have := digitsMSB_mem _ _ hmem
    rw [hddig] at this
    exact Bool.false_ne_true this
  · intro hmem
    have := renderFrac_mem _ _ _ hmem
    rw [hddig] at this
    exact Bool.false_ne_true this

/-! ### Stripping lemmas -/

theorem stripSymbol_prefix (sym t : List Char) : stripSymbol sym (sym ++ t) = t := by
  rw [stripSymbol, if_pos, List.drop_left]
  exact List.isPrefixOf_iff_prefix.mpr (List.prefix_append sym t)

theorem not_isPrefixOf_cons_cons {s0 h0 : Char} (ss hs : List Char) (hne : s0 ≠ h0) :
    ¬ (s0 :: ss).isPrefixOf (h0 :: hs) = true := by
  rw [List.isPrefixOf_cons₂]
  simp [hne]

theorem stripSymbol_of_suffix (sym t : List Char)
    (hpre : ¬ sym.isPrefixOf (t ++ sym) = true) :
    stripSymbol sym (t ++ sym) = t := by
  rw [stripSymbol, if_neg hpre, if_pos]
  · rw [List.length_append, Nat.add_sub_cancel]
    exact List.take_left t sym
  · exact List.isSuffixOf_iff_suffix.mpr (List.suffix_append t sym)

theorem stripSign_cons_minus (cs : List Char) : stripSign ('-' :: cs) = (true, cs) := by
  simp [stripSign]

theorem stripSign_of_no_sign (cs : List Char)
    (h1 : ∀ x, cs.head? = some x → x ≠ '-' ∧ x ≠ '+')
    (h2 : ∀ x, cs.getLast? = some x → x ≠ '-') :
    stripSign cs = (false, cs) := by
  rw [stripSign, if_neg, if_neg, if_neg]
  · exact fun e => (h2 _ e) rfl
  · exact fun e => (h1 _ e).2 rfl
  · exact fun e => (h1 _ e).1 rfl

/-! ### Rounding bridge lemmas -/

theorem natDivModVal (N e : Nat) :
    ((N / 10 ^ e : Nat) : ℚ) + ((N % 10 ^ e : Nat) : ℚ) / 10 ^ e
      = (N : ℚ) / 10 ^ e := by
  have h10 : ((10 : ℚ) ^ e) ≠ 0 := by positivity
  field_simp
  have h := congrArg (fun n : Nat => (n : ℚ)) (Nat.div_add_mod N (10 ^ e))
  push_cast at h
  linarith

theorem roundHalfUpInt_nonneg {q : ℚ} (h : 0 ≤ q) : 0 ≤ roundHalfUpInt q := by
  rw [roundHalfUpInt, if_pos h]
  exact Int.floor_nonneg.mpr (by linarith)

theorem roundHalfUpInt_neg_eq {q : ℚ} (h : q < 0) :
    roundHalfUpInt q = -roundHalfUpInt (-q) := by
  rw [roundHalfUpInt, roundHalfUpInt, if_neg (not_le.mpr h), if_pos (by linarith)]

theorem signVal (q : ℚ) (e : Nat) :
    (if q < 0 then (-1 : ℚ) else 1) * ((roundHalfUpInt (|q| * 10 ^ e)).toNat : ℚ)
      = (roundHalfUpInt (q * 10 ^ e) : ℚ) := by
  have hpow : (0 : ℚ) < 10 ^ e := by positivity
  by_cases hq : q < 0
  · rw [if_pos hq, abs_of_neg hq]
    have h1 : 0 ≤ -q * 10 ^ e := mul_nonneg (by linarith) (le_of_lt hpow)
    have h2 : 0 ≤ roundHalfUpInt (-q * 10 ^ e) := roundHalfUpInt_nonneg h1
    have h3 : q * 10 ^ e < 0 := mul_neg_of_neg_of_pos hq hpow
    rw [roundHalfUpInt_neg_eq h3, ← neg_mul]
    have h4 : ((roundHalfUpInt (-q * 10 ^ e)).toNat : ℚ)
        = ((roundHalfUpInt (-q * 10 ^ e) : ℤ) : ℚ) := by
      exact_mod_cast congrArg (fun z : ℤ => (z : ℚ)) (Int.toNat_of_nonneg h2)
    rw [h4]
    push_cast
    ring
  · rw [if_neg hq, abs_of_nonneg (not_lt.mp hq), one_mul]
    have h1 : 0 ≤ q * 10 ^ e := mul_nonneg (not_lt.mp hq) (le_of_lt hpow)
    have h2 := roundHalfUpInt_nonneg h1
    exact_mod_cast congrArg (fun z : ℤ => (z : ℚ)) (Int.toNat_of_nonneg h2)

/-! ### Evaluation of the parser on formatted strings -/

theorem parse_eval
    (c : Currency) (s : String) (neg : Bool) (N : Nat)
    (hgd : c.default_locale.localeFormat.grouping_separator
      ≠ c.default_locale.localeFormat.decimal_separator)
    (hgdig : (c.default_locale.localeFormat.grouping_separator).isDigit = false)
    (hddig : (c.default_locale.localeFormat.decimal_separator).isDigit = false)
    (hsign : stripSign s.data = (neg, formatAbs c c.default_locale.localeFormat N))
    (hstrip : stripSymbol c.symbol.data (formatAbs c c.default_locale.localeFormat N)
      = numPart c.default_locale.localeFormat c.exponent N) :
    Money.parse s c
      = Except.ok ⟨(if neg then (-1 : ℚ) else 1) * ((N : ℚ) / 10 ^ c.exponent), c⟩ := by
  have hmod : N % 10 ^ c.exponent < 10 ^ c.exponent :=
    Nat.mod_lt _ (by positivity)
  have hne : ((natDigitsLSB (N / 10 ^ c.exponent)).map Nat.digitChar).reverse
      ++ renderFrac c.exponent (N % 10 ^ c.exponent) ≠ [] := by
    intro h
    rcases List.append_eq_nil.mp h with ⟨h1, _⟩
    exact digitsMSB_ne_nil _ h1
  have hall : (((natDigitsLSB (N / 10 ^ c.exponent)).map Nat.digitChar).reverse
      ++ renderFrac c.exponent (N % 10 ^ c.exponent)).all Char.isDigit = true := by
    rw [List.all_eq_true]
    intro x hx
    rcases List.mem_append.mp hx with h | h
    · exact digitsMSB_mem _ x h
    · exact renderFrac_mem _ _ x h
  simp only [Money.parse]
  rw [hsign]
  simp only [hstrip, parse_numPart _ _ _ hgd hgdig hddig, assembleParts]
  rw [if_pos ⟨hne, hall⟩]
  rw [charsVal_digits, charsVal_renderFrac, renderFrac_length _ _ hmod, natDivModVal]

/-- The format/parse round trip for any currency whose exponent is positive
and whose symbol and separators are sign-free and digit-free (true of every
catalog currency): parsing the string formatted with the currency's default
locale recovers the amount rounded half-up to the currency's exponent. -/
theorem parse_format_roundtrip
    (c : Currency) (q : ℚ)
    (hE : c.exponent ≠ 0)
    (hgd : c.default_locale.localeFormat.grouping_separator
      ≠ c.default_locale.localeFormat.decimal_separator)
    (hgdig : (c.default_locale.localeFormat.grouping_separator).isDigit = false)
    (hddig : (c.default_locale.localeFormat.decimal_separator).isDigit = false)
    (hgm : c.default_locale.localeFormat.grouping_separator ≠ '-')
    (hgp : c.default_locale.localeFormat.grouping_separator ≠ '+')
    (hdm : c.default_locale.localeFormat.decimal_separator ≠ '-')
    (hdp : c.default_locale.localeFormat.decimal_separator ≠ '+')
    (hsymne : c.symbol.data ≠ [])
    (hsymhead : c.symbol.data.head?.all
      (fun x => !x.isDigit && (x != '-') && (x != '+') &&
        (x != c.default_locale.localeFormat.grouping_separator) &&
        (x != c.default_locale.localeFormat.decimal_separator)) = true)
    (hsymlast : c.symbol.data.getLast?.all (fun x => x != '-') = true) :
    Money.parse (Money.format ⟨q, c⟩ c.default_locale) c
      = Except.ok (Money.round ⟨q, c⟩ RoundingMode.halfUp) := by
  set fmt := c.default_locale.localeFormat with hfmtdef
  obtain ⟨s0, ss, hsym⟩ := List.exists_cons_of_ne_nil hsymne
  have hs0 : s0.isDigit = false ∧ s0 ≠ '-' ∧ s0 ≠ '+' ∧
      s0 ≠ fmt.grouping_separator ∧ s0 ≠ fmt.decimal_separator := by
    rw [hsym, List.head?_cons, Option.all_some] at hsymhead
    simpa [Bool.and_eq_true, bne_iff_ne, Bool.not_eq_true', and_assoc]
      using hsymhead
  have hsymlast' : ∀ x, c.symbol.data.getLast? = some x → x ≠ '-' := by
    intro x hx
    rw [hx, Option.all_some] at hsymlast
    simpa using hsymlast
  set N := (roundHalfUpInt (|q| * 10 ^ c.exponent)).toNat with hN
  have hnum_mem := numPart_mem fmt c.exponent N
  have hnum_ne := numPart_ne_nil fmt c.exponent N
  obtain ⟨h0, t0, hnum⟩ := List.exists_cons_of_ne_nil hnum_ne
  have hh0 : h0.isDigit = true ∨ h0 = fmt.grouping_separator
      ∨ h0 = fmt.decimal_separator :=
    hnum_mem h0 (by rw [hnum]; simp)
  have hh0ne : h0 ≠ '-' ∧ h0 ≠ '+' := by
    rcases hh0 with h | h | h
    · exact ⟨isDigit_ne_minus h, isDigit_ne_plus h⟩
    · rw [h]; exact ⟨hgm, hgp⟩
    · rw [h]; exact ⟨hdm, hdp⟩
  have hnum_last : ∀ x, (numPart fmt c.exponent N).getLast? = some x → x ≠ '-' := by
    intro x hx
    rcases hnum_mem x (mem_of_getLast?_eq hx) with h | h | h
    · exact isDigit_ne_minus h
    · rw [h]; exact hgm
    · rw [h]; exact hdm
  have hbody := formatAbs_eq_numPart c fmt N hE
  have hstrip : stripSymbol c.symbol.data (formatAbs c fmt N)
      = numPart fmt c.exponent N := by
    rw [hbody]
    by_cases hsf : c.symbol_first
    · rw [if_pos hsf]
      exact stripSymbol_prefix _ _
    · rw [if_neg hsf]
      apply stripSymbol_of_suffix
      rw [hnum, hsym, List.cons_append]
      apply not_isPrefixOf_cons_cons
      rcases hh0 with h | h | h
      · intro e'
        rw [e', h] at hs0
        simp at hs0
      · rw [h]; exact hs0.2.2.2.1
      · rw [h]; exact hs0.2.2.2.2
  have hhead_body : ∀ x, (formatAbs c fmt N).head? = some x → x ≠ '-' ∧ x ≠ '+' := by
    intro x hx
    rw [hbody] at hx
    by_cases hsf : c.symbol_first
    · rw [if_pos hsf, hsym, List.cons_append, List.head?_cons] at hx
      obtain rfl : s0 = x := by injection hx
      exact ⟨hs0.2.1, hs0.2.2.1⟩
    · rw [if_neg hsf, hnum, List.cons_append, List.head?_cons] at hx
      obtain rfl : h0 = x := by injection hx
      exact hh0ne
  have hlast_body : ∀ x, (formatAbs c fmt N).getLast? = some x → x ≠ '-' := by
    intro x hx
    rw [hbody] at hx
    by_cases hsf : c.symbol_first
    · rw [if_pos hsf, List.getLast?_append_of_ne_nil _ hnum_ne] at hx
      exact hnum_last x hx
    · rw [if_neg hsf, List.getLast?_append_of_ne_nil _ hsymne] at hx
      exact hsymlast' x hx
  have hsdata : (Money.format ⟨q, c⟩ c.default_locale).data
      = (if q < 0 then '-' :: formatAbs c fmt N else formatAbs c fmt N) := rfl
  have hround : Money.round ⟨q, c⟩ RoundingMode.halfUp
      = ⟨(roundHalfUpInt (q * 10 ^ c.exponent) : ℚ) / 10 ^ c.exponent, c⟩ := rfl
  by_cases hq : q < 0
  · have hsign : stripSign (Money.format ⟨q, c⟩ c.default_locale).data
        = (true, formatAbs c fmt N) := by
      rw [hsdata, if_pos hq]
      exact stripSign_cons_minus _
    rw [parse_eval c _ true N hgd hgdig hddig hsign hstrip, hround]
    have hv := signVal q c.exponent
    rw [if_pos hq] at hv
    rw [← hN] at hv
    congr 1
    rw [Money.mk.injEq]
    refine ⟨?_, rfl⟩
    rw [if_pos rfl, ← mul_div_assoc, hv]
  · have hsign : stripSign (Money.format ⟨q, c⟩ c.default_locale).data
        = (false, formatAbs c fmt N) := by
      rw [hsdata, if_neg hq]
      exact stripSign_of_no_sign _ hhead_body hlast_body
    rw [parse_eval c _ false N hgd hgdig hddig hsign hstrip, hround]
    have hv := signVal q c.exponent
    rw [if_neg hq] at hv
    rw [← hN] at hv
    congr 1
    rw [Money.mk.injEq]
    refine ⟨?_, rfl⟩
    rw [if_neg (by simp), ← mul_div_assoc, hv]

/-! ### Claim theorems -/

/-- C1 (amended): for every catalog currency `iso` and every amount `q`,
parsing the string formatted with the currency's default locale,
`parse(format(m, default_locale(m.currency)), m.currency)`, succeeds and
returns a Money numerically equal to `m` rounded to `m.currency`'s exponent
using the display rounding policy (half-up), not necessarily equal to the
unrounded original `m`.  (The claim's "every locale L" fails because `parse`
always uses the currency's default locale for its separator conventions; see
the counterexample.) -/
theorem C1_parse_format_default_locale_roundtrip (iso : Iso) (q : ℚ) :
    Money.parse
        (Money.format ⟨q, from_enum iso⟩ (from_enum iso).default_locale)
        (from_enum iso)
      = Except.ok (Money.round ⟨q, from_enum iso⟩ RoundingMode.halfUp) := by
  cases iso <;>
    exact parse_format_roundtrip _ q (by decide) (by decide) (by decide)
      (by decide) (by decide) (by decide) (by decide) (by decide) (by decide)
      (by decide) (by decide)

/-- C1, counterexample to the claim as stated: for `m = 2000.01 EUR` and the
non-default locale `L = EnUs`, `format` produces `"€2,000.01"`, which `parse`
— always using EUR's default locale `EnEu`, whose separators are reversed —
misreads as `2.00001`, so the round trip does not return `m` rounded to its
exponent. -/
theorem C1_counterexample_other_locale :
    Money.parse
        (Money.format ⟨200001 / 100, from_enum Iso.EUR⟩ Locale.EnUs)
        (from_enum Iso.EUR)
      ≠ Except.ok
          (Money.round ⟨200001 / 100, from_enum Iso.EUR⟩ RoundingMode.halfUp) := by
  have habs : |(200001 : ℚ) / 100| * 10 ^ (from_enum Iso.EUR).exponent
      = 200001 := by
    show |(200001 : ℚ) / 100| * 10 ^ 2 = 200001
    rw [abs_of_nonneg (by norm_num)]
    norm_num
  have hri : roundHalfUpInt
      (|(200001 : ℚ) / 100| * 10 ^ (from_enum Iso.EUR).exponent) = 200001 := by
    rw [habs, roundHalfUpInt, if_pos (by norm_num)]
    norm_num [Int.floor_eq_iff]
  have hstr : Money.format ⟨200001 / 100, from_enum Iso.EUR⟩ Locale.EnUs
      = String.mk ['€', '2', ',', '0', '0', '0', '.', '0', '1'] := by
    simp only [Money.format]
    rw [if_neg (by norm_num), hri]
    rfl
  have hsgn : (stripSign
      (String.mk ['€', '2', ',', '0', '0', '0', '.', '0', '1']).data).1
      = false := by decide
  have hsplit : splitOnChar
      (from_enum Iso.EUR).default_locale.localeFormat.decimal_separator
      ((stripSymbol (from_enum Iso.EUR).symbol.data
          (stripSign
            (String.mk ['€', '2', ',', '0', '0', '0', '.', '0', '1']).data).2).filter
        (fun ch =>
          ch ≠ (from_enum Iso.EUR).default_locale.localeFormat.grouping_separator))
      = [['2'], ['0', '0', '0', '0', '1']] := by decide
  have hparse : Money.parse
      (String.mk ['€', '2', ',', '0', '0', '0', '.', '0', '1'])
      (from_enum Iso.EUR)
      = Except.ok ⟨(200001 : ℚ) / 100000, from_enum Iso.EUR⟩ := by
    simp only [Money.parse]
    rw [hsgn, hsplit]
    simp only [assembleParts]
    rw [if_pos (by constructor <;> decide)]
    have hcv1 : charsVal ['2'] = 2 := by decide
    have hcv2 : charsVal ['0', '0', '0', '0', '1'] = 1 := by decide
    rw [hcv1, hcv2]
    rw [Except.ok.injEq, Money.mk.injEq]
    refine ⟨?_, rfl⟩
    norm_num
  have hround : Money.round ⟨(200001 : ℚ) / 100, from_enum Iso.EUR⟩
      RoundingMode.halfUp
      = ⟨(200001 : ℚ) / 100, from_enum Iso.EUR⟩ := by
    simp only [Money.round, roundToInt]
    rw [Money.mk.injEq]
    refine ⟨?_, rfl⟩
    have h1 : (200001 : ℚ) / 100 * 10 ^ (from_enum Iso.EUR).exponent
        = 200001 := by
      show (200001 : ℚ) / 100 * 10 ^ 2 = 200001
      norm_num
    rw [h1, roundHalfUpInt, if_pos (by norm_num)]
    have h2 : ⌊(200001 : ℚ) + 1 / 2⌋ = 200001 := by norm_num [Int.floor_eq_iff]
    rw [h2]
    show ((200001 : ℤ) : ℚ) / 10 ^ 2 = 200001 / 100
    norm_num
  rw [hstr, hparse, hround]
  intro hEq
  rw [Except.ok.injEq, Money.mk.injEq] at hEq
  have := hEq.1
  norm_num at this

/-- C2: formatting a negative Money emits the minus sign immediately before
the leading symbol-or-digit (first conjunct: the formatted string is an
optional leading minus followed by the absolute-value body, which places the
symbol before or after the digits per `symbol_first`, groups with the
locale's grouping separator and renders exactly `exponent` fractional digits
after the locale's decimal separator); concretely, USD `-2000.009` formats in
the US locale as `"-$2,000.01"` and EUR `-2000.009` formats in the EU locale
as `"-€2.000,01"`. -/
theorem C2_format_sign_symbol_grouping :
    (∀ (m : Money) (loc : Locale),
        Money.format m loc
          = String.mk ((if m.amount < 0 then ['-'] else []) ++
              formatAbs m.currency loc.localeFormat
                (roundHalfUpInt (|m.amount| * 10 ^ m.currency.exponent)).toNat)) ∧
    Money.format ⟨-2000009 / 1000, from_enum Iso.USD⟩ Locale.EnUs
      = "-$2,000.01" ∧
    Money.format ⟨-2000009 / 1000, from_enum Iso.EUR⟩ Locale.EnEu
      = "-€2.000,01" := by
  refine ⟨?_, ?_, ?_⟩
  · intro m loc
    simp only [Money.format]
    by_cases h : m.amount < 0
    · rw [if_pos h, if_pos h]
      rfl
    · rw [if_neg h, if_neg h]
      rfl
  · have hri : roundHalfUpInt
        (|(-2000009 / 1000 : ℚ)| * 10 ^ (from_enum Iso.USD).exponent)
        = 200001 := by
      have habs : |(-2000009 / 1000 : ℚ)| * 10 ^ (from_enum Iso.USD).exponent
          = 2000009 / 10 := by
        show |(-2000009 / 1000 : ℚ)| * 10 ^ 2 = 2000009 / 10
        rw [abs_of_nonpos (by norm_num)]
        norm_num
      rw [habs, roundHalfUpInt, if_pos (by norm_num)]
      norm_num [Int.floor_eq_iff]
    simp only [Money.format]
    rw [if_pos (by norm_num), hri]
    rfl
  · have hri : roundHalfUpInt
        (|(-2000009 / 1000 : ℚ)| * 10 ^ (from_enum Iso.EUR).exponent)
        = 200001 := by
      have habs : |(-2000009 / 1000 : ℚ)| * 10 ^ (from_enum Iso.EUR).exponent
          = 2000009 / 10 := by
        show |(-2000009 / 1000 : ℚ)| * 10 ^ 2 = 2000009 / 10
        rw [abs_of_nonpos (by norm_num)]
        norm_num
      rw [habs, roundHalfUpInt, if_pos (by norm_num)]
      norm_num [Int.floor_eq_iff]
    simp only [Money.format]
    rw [if_pos (by norm_num), hri]
    rfl

theorem roundHalfEvenInt_intCast (z : ℤ) : roundHalfEvenInt (z : ℚ) = z := by
  rw [roundHalfEvenInt, if_pos, Int.floor_intCast]
  rw [Int.fract_intCast]
  norm_num

/-- C3: `convert(r, m)` fails with `CurrencyMismatch` when `m.currency`
differs from `r.from_currency` and otherwise returns the exact product
`m.amount * r.rate` rounded half-up to `r.to_currency`'s exponent, in
`r.to_currency`; concretely, converting 1000 USD with a USD→EUR rate of 1.1
yields exactly 1100 EUR. -/
theorem C3_convert_rounds_half_up :
    (∀ (r : ExchangeRate) (m : Money),
        ExchangeRate.convert r m
          = if m.currency = r.from_currency then
              Except.ok (Money.round ⟨m.amount * r.rate, r.to_currency⟩
                RoundingMode.halfUp)
            else Except.error MoneyError.CurrencyMismatch) ∧
    ExchangeRate.new (from_enum Iso.USD) (from_enum Iso.EUR) (11 / 10)
      = Except.ok ⟨from_enum Iso.USD, from_enum Iso.EUR, 11 / 10⟩ ∧
    ExchangeRate.convert ⟨from_enum Iso.USD, from_enum Iso.EUR, 11 / 10⟩
        (Money.from_major 1000 (from_enum Iso.USD))
      = Except.ok (Money.from_major 1100 (from_enum Iso.EUR)) := by
  refine ⟨fun r m => rfl, ?_, ?_⟩
  · rw [ExchangeRate.new, if_neg]
    push_neg
    exact ⟨by decide, by norm_num⟩
  · simp only [ExchangeRate.convert, Money.from_major]
    rw [if_pos trivial, Except.ok.injEq]
    simp only [Money.round, roundToInt]
    rw [Money.mk.injEq]
    refine ⟨?_, rfl⟩
    have h1 : ((1000 : ℤ) : ℚ) * (11 / 10) * 10 ^ (from_enum Iso.EUR).exponent
        = 110000 := by
      show ((1000 : ℤ) : ℚ) * (11 / 10) * 10 ^ 2 = 110000
      push_cast
      norm_num
    rw [h1, roundHalfUpInt, if_pos (by norm_num)]
    have h2 : ⌊(110000 : ℚ) + 1 / 2⌋ = 110000 := by norm_num [Int.floor_eq_iff]
    rw [h2]
    show ((110000 : ℤ) : ℚ) / 10 ^ 2 = ((1100 : ℤ) : ℚ)
    push_cast
    norm_num

/-- C4: `ExchangeRate.new(from, to, r)` fails with `InvalidRate` exactly when
`from = to` or `r ≤ 0`, and returns the rate otherwise; in particular
`ExchangeRate.new(USD, USD, 1)` fails with `InvalidRate`. -/
theorem C4_exchange_rate_new_invalid :
    (∀ (f t : Currency) (r : ℚ),
        ExchangeRate.new f t r
          = if f = t ∨ r ≤ 0 then Except.error MoneyError.InvalidRate
            else Except.ok ⟨f, t, r⟩) ∧
    (∀ (f t : Currency) (r : ℚ),
        ExchangeRate.new f t r = Except.error MoneyError.InvalidRate
          ↔ f = t ∨ r ≤ 0) ∧
    ExchangeRate.new (from_enum Iso.USD) (from_enum Iso.USD) 1
      = Except.error MoneyError.InvalidRate := by
  refine ⟨fun f t r => rfl, fun f t r => ?_, ?_⟩
  · constructor
    · intro h
      by_contra hn
      rw [ExchangeRate.new, if_neg hn] at h
      exact Except.noConfusion h
    · intro h
      rw [ExchangeRate.new, if_pos h]
  · rw [ExchangeRate.new, if_pos (Or.inl rfl)]

/-- C5: `add` and `subtract` succeed exactly when the currencies agree,
returning the exact decimal sum or difference with no rounding, and fail
with `CurrencyMismatch` whenever the currencies differ. -/
theorem C5_add_sub_same_currency :
    ∀ a b : Money,
      (Money.add a b
          = if a.currency = b.currency
            then Except.ok ⟨a.amount + b.amount, a.currency⟩
            else Except.error MoneyError.CurrencyMismatch) ∧
      (Money.sub a b
          = if a.currency = b.currency
            then Except.ok ⟨a.amount - b.amount, a.currency⟩
            else Except.error MoneyError.CurrencyMismatch) :=
  fun _ _ => ⟨rfl, rfl⟩

/-- C6: construction from minor units is additive — adding
`from_minor(a, C)` and `from_minor(b, C)` yields `from_minor(a+b, C)`. -/
theorem C6_from_minor_additive (a b : ℤ) (C : Currency) :
    Money.add (Money.from_minor a C) (Money.from_minor b C)
      = Except.ok (Money.from_minor (a + b) C) := by
  simp only [Money.add, Money.from_minor]
  rw [if_pos trivial, Except.ok.injEq, Money.mk.injEq]
  refine ⟨?_, rfl⟩
  push_cast
  rw [div_add_div_same]

/-- C7: no construction or arithmetic operation rounds implicitly — the
constructors and the arithmetic operations produce the exact rational
results, and only the explicit `round` changes the amount, scaling it to
exactly the currency's exponent fractional digits. -/
theorem C7_no_implicit_rounding :
    (∀ (n : ℤ) (c : Currency),
        (Money.from_minor n c).amount = (n : ℚ) / 10 ^ c.exponent) ∧
    (∀ (n : ℤ) (c : Currency), (Money.from_major n c).amount = (n : ℚ)) ∧
    (∀ a b : Money,
        (Money.add a b).map Money.amount
          = if a.currency = b.currency then Except.ok (a.amount + b.amount)
            else Except.error MoneyError.CurrencyMismatch) ∧
    (∀ a b : Money,
        (Money.sub a b).map Money.amount
          = if a.currency = b.currency then Except.ok (a.amount - b.amount)
            else Except.error MoneyError.CurrencyMismatch) ∧
    (∀ (m : Money) (s : ℚ), (Money.mul m s).amount = m.amount * s) ∧
    (∀ (m : Money) (s : ℚ), (Money.div m s).amount = m.amount / s) ∧
    (∀ (m : Money) (mode : RoundingMode), ∃ z : ℤ,
        (Money.round m mode).amount = (z : ℚ) / 10 ^ m.currency.exponent ∧
        (Money.round m mode).amount * 10 ^ m.currency.exponent = (z : ℚ)) := by
  refine ⟨fun n c => rfl, fun n c => rfl, ?_, ?_, fun m s => rfl, fun m s => rfl, ?_⟩
  · intro a b
    rw [Money.add]
    by_cases h : a.currency = b.currency
    · rw [if_pos h, if_pos h]
      rfl
    · rw [if_neg h, if_neg h]
      rfl
  · intro a b
    rw [Money.sub]
    by_cases h : a.currency = b.currency
    · rw [if_pos h, if_pos h]
      rfl
    · rw [if_neg h, if_neg h]
      rfl
  · intro m mode
    refine ⟨roundToInt mode (m.amount * 10 ^ m.currency.exponent), rfl, ?_⟩
    have h10 : ((10 : ℚ) ^ m.currency.exponent) ≠ 0 := by positivity
    rw [Money.round]
    exact div_mul_cancel₀ _ h10

/-- C8: rounding with mode half-even is idempotent — rounding a Money whose
amount is already scaled to its currency's exponent changes nothing. -/
theorem C8_round_half_even_idempotent (m : Money) :
    Money.round (Money.round m RoundingMode.halfEven) RoundingMode.halfEven
      = Money.round m RoundingMode.halfEven := by
  simp only [Money.round, roundToInt]
  rw [Money.mk.injEq]
  refine ⟨?_, rfl⟩
  have h10 : ((10 : ℚ) ^ m.currency.exponent) ≠ 0 := by positivity
  rw [div_mul_cancel₀ _ h10, roundHalfEvenInt_intCast]

/-- C9 (amended): division by a nonzero scalar never fails (it is total in
the embedding) and keeps the exact extended-precision quotient rather than
rounding to the currency's exponent: 1 USD divided by 3 has amount exactly
1/3, which differs from its half-up rounding to 2 digits; and 3 USD divided
by 3 yields amount 1 (the claim's `0.333...` figure for `3/3` is wrong). -/
theorem C9_div_exact_extended_precision :
    (∀ (m : Money) (s : ℚ), s ≠ 0 →
        (Money.div m s).amount = m.amount / s ∧
        (Money.div m s).currency = m.currency) ∧
    (Money.div (Money.from_major 1 (from_enum Iso.USD)) 3).amount = 1 / 3 ∧
    (Money.div (Money.from_major 1 (from_enum Iso.USD)) 3).amount
      ≠ (Money.round (Money.div (Money.from_major 1 (from_enum Iso.USD)) 3)
          RoundingMode.halfUp).amount := by
  have hq : (Money.div (Money.from_major 1 (from_enum Iso.USD)) 3).amount
      = 1 / 3 := by
    show ((1 : ℤ) : ℚ) / 3 = 1 / 3
    push_cast
    ring
  refine ⟨fun m s _ => ⟨rfl, rfl⟩, hq, ?_⟩
  rw [hq]
  simp only [Money.round, roundToInt]
  have h1 : (Money.div (Money.from_major 1 (from_enum Iso.USD)) 3).amount *
      10 ^ (Money.div (Money.from_major 1 (from_enum Iso.USD)) 3).currency.exponent
      = 100 / 3 := by
    rw [hq]
    show (1 : ℚ) / 3 * 10 ^ 2 = 100 / 3
    norm_num
  rw [h1, roundHalfUpInt, if_pos (by norm_num)]
  have h2 : ⌊(100 : ℚ) / 3 + 1 / 2⌋ = 33 := by norm_num [Int.floor_eq_iff]
  rw [h2]
  show (1 : ℚ) / 3 ≠ ((33 : ℤ) : ℚ) / 10 ^ 2
  push_cast
  norm_num

/-- C9 witness: the universally quantified part of the theorem applied to
3 USD divided by the nonzero scalar 3. -/
theorem C9_div_witness :
    (Money.div (Money.from_major 3 (from_enum Iso.USD)) 3).amount
        = (Money.from_major 3 (from_enum Iso.USD)).amount / 3 ∧
      (Money.div (Money.from_major 3 (from_enum Iso.USD)) 3).currency
        = (Money.from_major 3 (from_enum Iso.USD)).currency :=
  C9_div_exact_extended_precision.1 (Money.from_major 3 (from_enum Iso.USD)) 3
    (by norm_num)

/-- C9 counterexample to the claim's concrete figure: 3 USD divided by 3 has
amount exactly 1, not the repeating decimal 0.333... (that is, not 1/3). -/
theorem C9_counterexample_three_div_three :
    (Money.div (Money.from_major 3 (from_enum Iso.USD)) 3).amount = 1 ∧
    (1 : ℚ) ≠ 1 / 3 := by
  constructor
  · show ((3 : ℤ) : ℚ) / 3 = 1
    push_cast
    norm_num
  · norm_num

/-- C10: `Money.new(n, c)` is `Money.from_minor(n, c)` — the default
constructor interprets its integer argument as minor units, so
`Money.new(200000, USD)` has amount 2000 USD, not 200000 USD. -/
theorem C10_new_is_from_minor :
    (∀ (n : ℤ) (c : Currency), Money.new n c = Money.from_minor n c) ∧
    (Money.new 200000 (from_enum Iso.USD)).amount = 2000 ∧
    (Money.new 200000 (from_enum Iso.USD)).amount ≠ 200000 := by
  refine ⟨fun n c => rfl, ?_, ?_⟩
  · show ((200000 : ℤ) : ℚ) / 10 ^ 2 = 2000
    push_cast
    norm_num
  · show ((200000 : ℤ) : ℚ) / 10 ^ 2 ≠ 200000
    push_cast
    norm_num

end RustyMoney
